import Mathlib

/-!
Verification of the trim-resolution core of the `trim_manager_backend`
repository: a shallow embedding of `app/matching.py` and
`app/llm_classification.py`, followed by theorems about the embedded
functions.

Modelling conventions:
* Python strings are Lean `String` (a list of characters); `str.lower`
  is modelled on ASCII code points (non-ASCII characters are treated as
  case-fixed, which is irrelevant here because the normalizer replaces
  every non-`[a-z0-9]` character by a space anyway).
* Machine floats of the source (`confidence` values, backoff delays)
  are modelled as `ℚ`.
* Network I/O of the external-classifier adapter is modelled by an
  oracle list of per-attempt outcomes (`AttemptOutcome`), and the two
  `rapidfuzz` scorers (external library code) are abstract parameters
  `String → String → Nat` (the source truncates every score with `int`
  before comparing it to an integer threshold).
-/

/-! ### Character-level helpers for `_norm` (matching.py lines 20-29) -/

/-- `[a-z0-9]`: the characters kept by `_ALNUM_RE = re.compile(r"[^a-z0-9]+")`.
`97..122` is `a..z`, `48..57` is `0..9`. -/
def isKeep (c : Char) : Bool :=
  (97 ≤ c.toNat && c.toNat ≤ 122) || (48 ≤ c.toNat && c.toNat ≤ 57)

/-- ASCII model of Python `str.lower` on one character
(`65..90` is `A..Z`; lowering adds 32). -/
def pyLowerChar (c : Char) : Char :=
  if 65 ≤ c.toNat && c.toNat ≤ 90 then Char.ofNat (c.toNat + 32) else c

/-- One character of `_ALNUM_RE.sub(" ", s)`: any non-`[a-z0-9]` character
becomes a space.  (The regex replaces a whole run by a single space; here
each character of the run becomes a space and `collapse` below merges the
run, which yields the same composite string.) -/
def subChar (c : Char) : Char :=
  if isKeep c then c else ' '

/-- Merge every run of spaces into a single space: the combined effect of
run-replacement in `_ALNUM_RE.sub` and of `_WS_RE.sub(" ", s)`. -/
def collapse : List Char → List Char
  | [] => []
  | [c] => [c]
  | a :: b :: rest =>
    if a = ' ' ∧ b = ' ' then collapse (b :: rest) else a :: collapse (b :: rest)

/-- Remove a trailing run of whitespace (the right half of `str.strip()`). -/
def dropTrailWs : List Char → List Char
  | [] => []
  | c :: cs =>
    if Char.isWhitespace c ∧ (dropTrailWs cs).isEmpty then [] else c :: dropTrailWs cs

/-- Python `str.strip()` on a character list. -/
def stripWsChars (l : List Char) : List Char :=
  dropTrailWs (l.dropWhile Char.isWhitespace)

/-- Python `str.strip()`. -/
def stripWs (s : String) : String :=
  ⟨stripWsChars s.data⟩

/-- Python `str.lower()` (ASCII model). -/
def pyLower (s : String) : String :=
  ⟨s.data.map pyLowerChar⟩

/-- `_norm` of matching.py on the characters: lowercase, replace runs of
non-alphanumerics by one space, collapse whitespace, strip. -/
def normChars (l : List Char) : List Char :=
  stripWsChars (collapse ((l.map pyLowerChar).map subChar))

/-- `_norm` of matching.py (and the identical `_norm` of
llm_classification.py) on a string. -/
def pyNorm (s : String) : String :=
  ⟨normChars s.data⟩

/-- `_norm` applied to an optional string: `if not s: return ""`. -/
def optNorm : Option String → String
  | none => ""
  | some s => pyNorm s

/-! ### `_clip01` (matching.py lines 31-35, llm_classification.py 76-80) -/

/-- `_clip01` on a number: `max(0.0, min(1.0, float(x)))`. -/
def clip01 (x : ℚ) : ℚ :=
  max 0 (min 1 x)

/-- `_clip01` on a JSON value that may fail `float()` conversion
(`none` models a non-numeric value, which the `except` clause turns
into `0.0`). -/
def clip01opt : Option ℚ → ℚ
  | none => 0
  | some x => clip01 x

/-! ### Substring test: Python `needle in hay` -/

/-- Does `hay` start with `needle`? -/
def startsWithChars : List Char → List Char → Bool
  | [], _ => true
  | _ :: _, [] => false
  | a :: as, b :: bs => a = b && startsWithChars as bs

/-- Does `hay` contain `needle` as a contiguous substring? -/
def hasInfixChars (needle : List Char) : List Char → Bool
  | [] => startsWithChars needle []
  | c :: cs => startsWithChars needle (c :: cs) || hasInfixChars needle cs

/-- Python `needle in hay` on strings. -/
def strIn (needle hay : String) : Bool :=
  hasInfixChars needle.data hay.data

/-! ### `_canonical_method` (matching.py lines 37-58) -/

/-- The keyword cascade of `_canonical_method` on the already
trimmed-and-lowercased label `n = name.strip().lower()`, clause by
clause from the source. -/
def canonical_core (n : String) : String :=
  if n = "exact" then "exact"
  else if strIn "manual" n then "manual"
  else if strIn "llm" n || strIn "ai" n then "LLM"
  else if strIn "fuzzy" n then "fuzzy"
  else if strIn "rule" n || strIn "mapping" n || strIn "heuristic" n ||
          strIn "canonical" n || strIn "closest" n || strIn "string" n then "fuzzy"
  else if n = "unmatched" ∨ n = "null" then "unmatched"
  else "fuzzy"

/-- `_canonical_method`: fold any legacy/variant method label into a small
canonical set (`if not name: return "unmatched"`, then the cascade). -/
def canonical_method (name : Option String) : String :=
  match name with
  | none => "unmatched"
  | some s =>
    if s = "" then "unmatched"
    else canonical_core (pyLower (stripWs s))

/-! ### `get_candidate_trims` (matching.py lines 83-121)

The SQL query itself runs in the database (an external collaborator);
`rows` below models the fetched rows `r` with `r[0]` the returned string
(or NULL).  The Lean function is the in-Python post-processing loop:
strip, drop empties, deduplicate by `t.lower()` first-seen-wins. -/

/-- The dedup loop of `get_candidate_trims` with its `seen` set
(here: the list of already-seen lowercased keys).  The source binds
`t = (r[0] or "").strip()` once; it is inlined at its three uses. -/
def dedupeRows (seen : List String) : List (Option String) → List String
  | [] => []
  | r :: rs =>
    if stripWs (r.getD "") = "" then dedupeRows seen rs
    else if pyLower (stripWs (r.getD "")) ∈ seen then dedupeRows seen rs
    else stripWs (r.getD "") :: dedupeRows (pyLower (stripWs (r.getD "")) :: seen) rs

/-- `get_candidate_trims` applied to the rows fetched from the database. -/
def get_candidate_trims (rows : List (Option String)) : List String :=
  dedupeRows [] rows

/-! ### External classifier adapter (`llm_classification.py`)

Constants from lines 14-17 of the source.  `_rate_limit` (lines 20-30)
and the prompt construction only affect wall-clock timing and the remote
request; they do not influence the returned value and are not modelled.
-/

/-- `MAX_RETRIES = 4`. -/
def MAX_RETRIES : Nat := 4

/-- `BACKOFF_BASE = 0.75` seconds. -/
def BACKOFF_BASE : ℚ := 3 / 4

/-- The backoff slept after failed attempt number `attempt`:
`BACKOFF_BASE * (2 ** (attempt - 1))`. -/
def backoff (attempt : Nat) : ℚ :=
  BACKOFF_BASE * 2 ^ (attempt - 1)

/-- The JSON object recovered from the response body by `_extract_json`
plus the field reads of lines 177-178: `trim` (`parsed.get("trim") or ""`,
so a missing or null field is `""`) and `confidence` (`none` models a
value on which `float()` fails, see `clip01opt`). -/
structure LlmAnswer where
  trim : String
  confidence : Option ℚ
deriving DecidableEq

/-- One network attempt of the retry loop (lines 158-204), as seen by the
`except` clauses:
* `timeout`/`connError` — `requests.Timeout` / `requests.ConnectionError`;
* `status code parsed` — an HTTP response arrived with this status code;
  for an accepted status, `parsed` is the JSON object recovered from the
  body (`none` when `resp.json()` or `_extract_json` fails, i.e. the
  `ValueError` path of line 175);
* `unexpected` — any exception outside those classes (line 201), e.g. the
  `IndexError` raised by a body whose `choices` array is empty. -/
inductive AttemptOutcome where
  | timeout
  | connError
  | status (code : Nat) (parsed : Option LlmAnswer)
  | unexpected
deriving DecidableEq

/-- The dictionary returned by `llm_assign`:
`{trim, confidence, assignment_method}`. -/
structure LlmResult where
  trim : String
  confidence : ℚ
  method : String
deriving DecidableEq

/-- First-match lookup in an association list; models reading a Python
dict whose insertion order the list records. -/
def alookup (k : String) : List (String × String) → Option String
  | [] => none
  | (k', v) :: rest => if k = k' then some v else alookup k rest

/-- Overwriting insert, preserving insertion order: Python
`d[k] = v`. -/
def dictInsert (m : List (String × String)) (k v : String) : List (String × String) :=
  if m.any (fun p => p.1 == k) then m.map (fun p => if p.1 = k then (k, v) else p)
  else m ++ [(k, v)]

/-- `norm_map = { _norm(t): t for t in candidate_trims if t }` (line 153):
a dict comprehension, so for colliding keys the LAST occurrence wins. -/
def llmNormMap (ts : List String) : List (String × String) :=
  ts.foldl (fun m t => if t ≠ "" then dictInsert m (pyNorm t) t else m) []

/-- What the body of the `try:` block does with one attempt's outcome:
either control reaches a `return` (`done`) or an exception in the retried
tuple `(Timeout, ConnectionError, HTTPError, ValueError)` is caught
(`retry`).  `resp.raise_for_status()` raises `HTTPError` for every status
in `400..599`, which is why any `400 ≤ code` is retried. -/
inductive StepResult where
  | retry
  | done (r : LlmResult)
deriving DecidableEq

/-- One iteration of the retry loop (lines 159-204). -/
def attemptStep (norm_map : List (String × String)) (min_ai_confidence : ℚ) :
    AttemptOutcome → StepResult
  | .timeout => .retry
  | .connError => .retry
  | .unexpected => .done ⟨"", 0, "unmatched"⟩
  | .status code parsed =>
    if 500 ≤ code then .retry
    else if 400 ≤ code then .retry
    else
      match parsed with
      | none => .retry
      | some a =>
        if a.trim ≠ "" then
          let chosen_norm := pyNorm a.trim
          let conf_out := clip01opt a.confidence
          match alookup chosen_norm norm_map with
          | some orig =>
            if min_ai_confidence ≤ conf_out then .done ⟨orig, conf_out, "LLM"⟩
            else .done ⟨"", 0, "unmatched"⟩
          | none => .done ⟨"", 0, "unmatched"⟩
        else .done ⟨"", 0, "unmatched"⟩

/-- The classification of exceptions that the retry loop catches and
retries (the tuple of line 195), expressed on outcomes. -/
def isRetryable : AttemptOutcome → Bool
  | .timeout => true
  | .connError => true
  | .status code parsed => if 400 ≤ code then true else parsed.isNone
  | .unexpected => false

/-- The observable behaviour of one `llm_assign` call: the returned dict,
how many attempts were issued, and the backoff sleeps performed
(in order). -/
structure LlmRun where
  result : LlmResult
  attemptsMade : Nat
  sleeps : List ℚ
deriving DecidableEq

/-- The `for attempt in range(1, MAX_RETRIES + 1)` loop.  `remaining` is
the number of loop iterations left, `attempt` the 1-based number of the
next attempt.  Falling off the loop returns the unmatched dict of
line 207.  (The oracle list running out before the loop does is a
modelling artifact; theorems supply enough outcomes.) -/
def llmLoop (norm_map : List (String × String)) (min_ai_confidence : ℚ) :
    Nat → Nat → List AttemptOutcome → LlmRun
  | _, 0, _ => ⟨⟨"", 0, "unmatched"⟩, 0, []⟩
  | _, _ + 1, [] => ⟨⟨"", 0, "unmatched"⟩, 0, []⟩
  | attempt, remaining + 1, o :: rest =>
    match attemptStep norm_map min_ai_confidence o with
    | .done r => ⟨r, 1, []⟩
    | .retry =>
      let cont := llmLoop norm_map min_ai_confidence (attempt + 1) remaining rest
      ⟨cont.result, cont.attemptsMade + 1, backoff attempt :: cont.sleeps⟩

/-- `llm_assign` (lines 82-207).  `api_key_present` models whether
`PERP_API_KEY`/`PERPLEXITY_API_KEY` is set (lines 95-98); `outcomes` is
the oracle of network-attempt outcomes. -/
def llm_assign (api_key_present : Bool) (candidate_trims : List String)
    (min_ai_confidence : ℚ) (outcomes : List AttemptOutcome) : LlmRun :=
  if api_key_present then
    llmLoop (llmNormMap candidate_trims) min_ai_confidence 1 MAX_RETRIES outcomes
  else ⟨⟨"", 0, "unmatched"⟩, 0, []⟩

/-! ### `match_trim` (matching.py lines 60-255) -/

/-- `ListingInput` (matching.py lines 60-77): `from_obj` coerces missing
`brand`/`model` to `""` and leaves the other fields optional. -/
structure ListingInput where
  brand : String
  model : String
  trim : Option String
  title : Option String
  description : Option String
deriving DecidableEq

/-- The dict returned by `match_trim`:
`{trim, confidence, assignment_method}` with `trim = None` on no match. -/
structure MatchOut where
  trim : Option String
  confidence : ℚ
  method : String
deriving DecidableEq

/-- The loop of lines 152-158 building `norm_to_original` (and, as its
key list, `normalized_candidates`): first-seen-wins on the normalized
key, skipping empty keys.  `seen` is the key set accumulated so far. -/
def buildNormMapGo (seen : List String) : List String → List (String × String)
  | [] => []
  | t :: ts =>
    let n := pyNorm t
    if n ≠ "" ∧ n ∉ seen then (n, t) :: buildNormMapGo (n :: seen) ts
    else buildNormMapGo seen ts

/-- `norm_to_original` built from the (already filtered) candidate list. -/
def buildNormMap (l : List String) : List (String × String) :=
  buildNormMapGo [] l

/-- `rapidfuzz.process.extractOne(query, candidates, scorer)` with the
scorer abstracted: the best-scoring candidate, first-seen-wins on ties,
`none` on an empty candidate list. -/
def extractOne (scorer : String → String → Nat) (query : String) :
    List String → Option (String × Nat)
  | [] => none
  | c :: cs =>
    some (cs.foldl
      (fun best x => if best.2 < scorer query x then (x, scorer query x) else best)
      (c, scorer query c))

/-- `_best_by_scorer` (lines 192-198). -/
def best_by_scorer (scorer : String → String → Nat) (query : String)
    (candidates : List String) : Option String × Nat :=
  if query = "" then (none, 0)
  else
    match extractOne scorer query candidates with
    | none => (none, 0)
    | some (v, s) => (some v, s)

/-- `max(range(len(alt_scores)), key=lambda i: alt_scores[i])` followed by
reading the pair: the first pair of maximal score (Python `max` keeps the
first of equals). -/
def argmaxFirst : List (String × Nat) → Option (String × Nat)
  | [] => none
  | p :: ps => some (ps.foldl (fun best x => if best.2 < x.2 then x else best) p)

/-- `" ".join(queries)`. -/
def joinSpace : List String → String
  | [] => ""
  | [q] => q
  | q :: rest => q ++ " " ++ joinSpace rest

/-- Stage 1 of `match_trim` (lines 162-168): exact normalized equality.
`raw_trim_norm and raw_trim_norm in norm_to_original`. -/
def exactStage (norm_to_original : List (String × String)) (raw_trim_norm : String) :
    Option MatchOut :=
  match (if raw_trim_norm = "" then none else alookup raw_trim_norm norm_to_original) with
  | some orig => some ⟨some orig, 1, "exact"⟩
  | none => none

/-- Stage 2 of `match_trim` (lines 170-188): the external-classifier
result, validated against the candidate map and the confidence floor.
`aiGuess = .error ()` models `llm_assign` raising (the `except` of
line 187); the dict read uses `assignment_method` as returned (the
`.get` default `"LLM"` only covers a missing key). -/
def llmStage (norm_to_original : List (String × String)) (min_ai_confidence : ℚ)
    (aiGuess : Except Unit LlmResult) : Option MatchOut :=
  match aiGuess with
  | .error _ => none
  | .ok g =>
    let ai_trim := g.trim
    let ai_conf := clip01 g.confidence
    let ai_method := canonical_method (some g.method)
    if ai_trim = "" then none
    else
      match alookup (pyNorm ai_trim) norm_to_original with
      | some orig =>
        if min_ai_confidence ≤ ai_conf then some ⟨some orig, ai_conf, ai_method⟩
        else none
      | none => none

/-- Stage 3 of `match_trim` (lines 200-207): fuzzy tier 1 on the raw
trim alone.  `norm_to_original[best_val]` cannot fail because `best_val`
is one of the map's keys; `getD ""` records that. -/
def fuzzy1Stage (tokenSetR : String → String → Nat)
    (norm_to_original : List (String × String)) (raw_trim_norm : String)
    (fuzzy_primary_threshold : Nat) : Option MatchOut :=
  match best_by_scorer tokenSetR raw_trim_norm (norm_to_original.map Prod.fst) with
  | (some best_val, best_score) =>
    if fuzzy_primary_threshold ≤ best_score then
      some ⟨some ((alookup best_val norm_to_original).getD ""),
            clip01 ((best_score : ℚ) / 100), "fuzzy"⟩
    else none
  | (none, _) => none

/-- The `if vN: alt_candidates.append(vN); alt_scores.append(sN)`
pattern of lines 227-239: the scored pair when a best candidate
exists, nothing otherwise. -/
def bestPair (scorer : String → String → Nat) (query : String)
    (candidates : List String) : List (String × Nat) :=
  match best_by_scorer scorer query candidates with
  | (some v, s) => [(v, s)]
  | (none, _) => []

/-- Stage 4 of `match_trim` (lines 209-250): fuzzy tier 2 on the
combined evidence.  Lines 232-233 (`if not combined and title_norm`)
are kept although they can never change `combined`. -/
def fuzzy2Stage (tokenSetR partialR : String → String → Nat)
    (norm_to_original : List (String × String)) (raw_trim_norm : String)
    (title description : Option String) (fuzzy_secondary_threshold : Nat) :
    Option MatchOut :=
  let title_norm := optNorm title
  let desc_norm0 := optNorm description
  let desc_norm := if 300 < desc_norm0.data.length then (⟨desc_norm0.data.take 300⟩ : String)
                   else desc_norm0
  let combined0 := stripWs (joinSpace ([raw_trim_norm, title_norm].filter (fun q => q ≠ "")))
  let alt1 : List (String × Nat) :=
    if combined0 ≠ "" then
      bestPair tokenSetR combined0 (norm_to_original.map Prod.fst) ++
      bestPair partialR combined0 (norm_to_original.map Prod.fst)
    else []
  let combined := if combined0 = "" ∧ title_norm ≠ "" then title_norm else combined0
  let alt : List (String × Nat) :=
    alt1 ++
    (if alt1.isEmpty ∧ (combined ≠ "" ∨ desc_norm ≠ "") then
       bestPair tokenSetR (stripWs (combined ++ " " ++ desc_norm))
         (norm_to_original.map Prod.fst)
     else [])
  match argmaxFirst alt with
  | some (cand_norm, cand_score) =>
    if fuzzy_secondary_threshold ≤ cand_score then
      some ⟨some ((alookup cand_norm norm_to_original).getD ""),
            clip01 ((cand_score : ℚ) / 100), "fuzzy"⟩
    else none
  | none => none

/-- Run early-return stages in order; the first `some` wins, otherwise
the terminal unmatched dict of line 255. -/
def runStages : List (Option MatchOut) → MatchOut
  | [] => ⟨none, 0, "unmatched"⟩
  | o :: rest =>
    match o with
    | some r => r
    | none => runStages rest

/-- `match_trim` (lines 127-255), translated as one function following
the source's early-return control flow.  The `rapidfuzz` scorers and the
(possibly raising) `llm_assign` call are passed as oracles. -/
def match_trim (listing : ListingInput) (candidate_trims : List String)
    (fuzzy_primary_threshold fuzzy_secondary_threshold : Nat)
    (min_ai_confidence : ℚ) (allow_external_llm : Bool)
    (tokenSetR partialR : String → String → Nat)
    (aiGuess : Except Unit LlmResult) : MatchOut :=
  let cand_list := candidate_trims.filter (fun c => c ≠ "")
  if cand_list.isEmpty then ⟨none, 0, "unmatched"⟩
  else
    let norm_to_original := buildNormMap cand_list
    let raw_trim_norm := optNorm listing.trim
    match exactStage norm_to_original raw_trim_norm with
    | some r => r
    | none =>
      match (if allow_external_llm then llmStage norm_to_original min_ai_confidence aiGuess
             else none) with
      | some r => r
      | none =>
        match fuzzy1Stage tokenSetR norm_to_original raw_trim_norm fuzzy_primary_threshold with
        | some r => r
        | none =>
          match fuzzy2Stage tokenSetR partialR norm_to_original raw_trim_norm
                  listing.title listing.description fuzzy_secondary_threshold with
          | some r => r
          | none => ⟨none, 0, "unmatched"⟩

/-- Proof-support predicate: no two adjacent spaces. -/
def noDouble : List Char → Prop
  | a :: b :: rest => ¬(a = ' ' ∧ b = ' ') ∧ noDouble (b :: rest)
  | _ => True

theorem noDouble_single (c : Char) : noDouble [c] := trivial

theorem noDouble_tail (a : Char) (l : List Char) (h : noDouble (a :: l)) : noDouble l := by
  cases l with
  | nil => trivial
  | cons b rest => exact h.2

theorem mem_collapse : ∀ (l : List Char) (c : Char), c ∈ collapse l → c ∈ l
  | [], c, h => by simp [collapse] at h
  | [a], c, h => by simpa [collapse] using h
  | a :: b :: rest, c, h => by
    rw [collapse] at h
    split at h
    · exact List.mem_cons_of_mem a (mem_collapse (b :: rest) c h)
    · rcases List.mem_cons.mp h with rfl | h'
      · exact List.mem_cons_self _ _
      · exact List.mem_cons_of_mem a (mem_collapse (b :: rest) c h')

theorem mem_dropTrailWs : ∀ (l : List Char) (c : Char), c ∈ dropTrailWs l → c ∈ l
  | [], c, h => by simp [dropTrailWs] at h
  | a :: as, c, h => by
    rw [dropTrailWs] at h
    split at h
    · simp at h
    · rcases List.mem_cons.mp h with rfl | h'
      · exact List.mem_cons_self _ _
      · exact List.mem_cons_of_mem a (mem_dropTrailWs as c h')

theorem mem_dropWhile (p : Char → Bool) :
    ∀ (l : List Char) (c : Char), c ∈ l.dropWhile p → c ∈ l := by
  intro l
  induction l with
  | nil => intro c h; simp at h
  | cons a as ih =>
    intro c h
    rw [List.dropWhile_cons] at h
    split at h
    · exact List.mem_cons_of_mem a (ih c h)
    · exact h

theorem collapse_ne_nil : ∀ (b : Char) (rest : List Char), collapse (b :: rest) ≠ []
  | b, [] => by simp [collapse]
  | b, r :: rs => by
    rw [collapse]
    split
    · exact collapse_ne_nil r rs
    · simp

theorem collapse_cons_head : ∀ (b : Char) (rest : List Char) (h : Char) (t : List Char),
    collapse (b :: rest) = h :: t → (h = ' ' ↔ b = ' ')
  | b, [], h, t, he => by
    rw [collapse] at he
    injection he with h1 h2
    rw [← h1]
  | b, r :: rs, h, t, he => by
    rw [collapse] at he
    split at he
    · rename_i hg
      have ih := collapse_cons_head r rs h t he
      constructor
      · intro _; exact hg.1
      · intro _; exact ih.mpr hg.2
    · injection he with h1 h2
      rw [← h1]

theorem noDouble_collapse : ∀ (l : List Char), noDouble (collapse l)
  | [] => trivial
  | [a] => by rw [collapse]; exact noDouble_single a
  | a :: b :: rest => by
    rw [collapse]
    split
    · exact noDouble_collapse (b :: rest)
    · rename_i hg
      cases hcb : collapse (b :: rest) with
      | nil => exact absurd hcb (collapse_ne_nil b rest)
      | cons h t =>
        have hnd : noDouble (h :: t) := hcb ▸ noDouble_collapse (b :: rest)
        exact ⟨fun ⟨ha, hh⟩ => hg ⟨ha, (collapse_cons_head b rest h t hcb).mp hh⟩, hnd⟩

theorem collapse_eq_self : ∀ (l : List Char), noDouble l → collapse l = l
  | [], _ => rfl
  | [a], _ => rfl
  | a :: b :: rest, h => by
    rw [collapse, if_neg h.1, collapse_eq_self (b :: rest) h.2]

theorem noDouble_dropWhile (p : Char → Bool) :
    ∀ (l : List Char), noDouble l → noDouble (l.dropWhile p) := by
  intro l
  induction l with
  | nil => intro h; simpa using h
  | cons a as ih =>
    intro h
    rw [List.dropWhile_cons]
    split
    · exact ih (noDouble_tail a as h)
    · exact h

theorem dropTrailWs_head : ∀ (l : List Char) (h : Char) (t : List Char),
    dropTrailWs l = h :: t → ∃ u, l = h :: u
  | [], h, t, he => by simp [dropTrailWs] at he
  | a :: as, h, t, he => by
    rw [dropTrailWs] at he
    split at he
    · simp at he
    · injection he with h1 h2
      exact ⟨as, by rw [h1]⟩

theorem noDouble_dropTrailWs : ∀ (l : List Char), noDouble l → noDouble (dropTrailWs l)
  | [], _ => trivial
  | a :: as, h => by
    rw [dropTrailWs]
    split
    · trivial
    · cases hr : dropTrailWs as with
      | nil => exact noDouble_single a
      | cons b t =>
        have hnd : noDouble (b :: t) := hr ▸ noDouble_dropTrailWs as (noDouble_tail a as h)
        refine ⟨fun hab => ?_, hnd⟩
        obtain ⟨u, hu⟩ := dropTrailWs_head as b t hr
        rw [hu] at h
        exact h.1 hab

theorem dropTrailWs_idem : ∀ (l : List Char), dropTrailWs (dropTrailWs l) = dropTrailWs l
  | [] => rfl
  | a :: as => by
    rw [dropTrailWs]
    split
    · rfl
    · rename_i hg
      rw [dropTrailWs, dropTrailWs_idem as, if_neg hg]

theorem dropWhile_head_false (p : Char → Bool) :
    ∀ (l : List Char) (h : Char) (t : List Char), l.dropWhile p = h :: t → p h = false := by
  intro l
  induction l with
  | nil => intro h t he; simp at he
  | cons a as ih =>
    intro h t he
    rw [List.dropWhile_cons] at he
    split at he
    · exact ih h t he
    · rename_i hpa
      injection he with h1 h2
      rw [← h1]
      simpa using hpa

theorem map_fixed {α : Type} (f : α → α) :
    ∀ (l : List α), (∀ c ∈ l, f c = c) → l.map f = l := by
  intro l
  induction l with
  | nil => intro _; rfl
  | cons a as ih =>
    intro h
    simp only [List.map_cons, h a (List.mem_cons_self a as),
      ih fun c hc => h c (List.mem_cons_of_mem a hc)]

theorem mem_map_subChar (z : List Char) (c : Char) (h : c ∈ z.map subChar) :
    isKeep c = true ∨ c = ' ' := by
  obtain ⟨a, _, rfl⟩ := List.mem_map.mp h
  by_cases hk : isKeep a = true
  · left; simp [subChar, hk]
  · right; simp [subChar, hk]

theorem mem_normChars (l : List Char) (c : Char) (h : c ∈ normChars l) :
    isKeep c = true ∨ c = ' ' := by
  unfold normChars stripWsChars at h
  exact mem_map_subChar _ c
    (mem_collapse _ c (mem_dropWhile _ _ c (mem_dropTrailWs _ c h)))

theorem pyLowerChar_fixed (c : Char) (h : isKeep c = true ∨ c = ' ') : pyLowerChar c = c := by
  have hcond : (65 ≤ c.toNat && c.toNat ≤ 90) = false := by
    rcases h with h | rfl
    · have hk : (97 ≤ c.toNat ∧ c.toNat ≤ 122) ∨ (48 ≤ c.toNat ∧ c.toNat ≤ 57) := by
        simpa [isKeep] using h
      simp only [Bool.and_eq_false_iff, decide_eq_false_iff_not]
      omega
    · decide
  simp [pyLowerChar, hcond]

theorem subChar_fixed (c : Char) (h : isKeep c = true ∨ c = ' ') : subChar c = c := by
  rcases h with h | rfl
  · simp [subChar, h]
  · decide

theorem normChars_idem (l : List Char) : normChars (normChars l) = normChars l := by
  have h1 : (normChars l).map pyLowerChar = normChars l :=
    map_fixed _ _ fun c hc => pyLowerChar_fixed c (mem_normChars l c hc)
  have h2 : (normChars l).map subChar = normChars l :=
    map_fixed _ _ fun c hc => subChar_fixed c (mem_normChars l c hc)
  have h3 : noDouble (normChars l) := by
    unfold normChars stripWsChars
    exact noDouble_dropTrailWs _ (noDouble_dropWhile _ _ (noDouble_collapse _))
  have h4 : collapse (normChars l) = normChars l := collapse_eq_self _ h3
  have h5 : (normChars l).dropWhile Char.isWhitespace = normChars l := by
    cases hr : normChars l with
    | nil => rfl
    | cons h t =>
      have hr' : dropTrailWs ((collapse ((l.map pyLowerChar).map subChar)).dropWhile
          Char.isWhitespace) = h :: t := hr
      obtain ⟨u, hu⟩ := dropTrailWs_head _ h t hr'
      have hph : Char.isWhitespace h = false := dropWhile_head_false _ _ h u hu
      rw [List.dropWhile_cons, if_neg (by simp [hph])]
  have h6 : dropTrailWs (normChars l) = normChars l := by
    conv_lhs => rw [show normChars l = dropTrailWs ((collapse ((l.map pyLowerChar).map
      subChar)).dropWhile Char.isWhitespace) from rfl]
    rw [dropTrailWs_idem]
    rfl
  conv_lhs => rw [normChars, h1, h2, h4, stripWsChars, h5, h6]

theorem pyNorm_idem (s : String) : pyNorm (pyNorm s) = pyNorm s :=
  congrArg String.mk (normChars_idem s.data)

/-- Proof-support: the list of backoffs slept by consecutive failed
attempts `a, a+1, ..., a+n-1`. -/
def backoffList : Nat → Nat → List ℚ
  | _, 0 => []
  | a, n + 1 => backoff a :: backoffList (a + 1) n

theorem attemptStep_retry_iff (m : List (String × String)) (conf : ℚ) (o : AttemptOutcome) :
    attemptStep m conf o = .retry ↔ isRetryable o = true := by
  cases o with
  | timeout => simp [attemptStep, isRetryable]
  | connError => simp [attemptStep, isRetryable]
  | unexpected => simp [attemptStep, isRetryable]
  | status code parsed =>
    simp only [attemptStep, isRetryable]
    by_cases h4 : 400 ≤ code
    · by_cases h5 : 500 ≤ code
      · simp [h4, h5]
      · simp [h4, h5]
    · have h5 : ¬ 500 ≤ code := by omega
      simp only [if_neg h5, if_neg h4]
      cases parsed with
      | none => simp
      | some a =>
        simp only [Option.isNone_some]
        constructor
        · intro h
          exfalso
          split at h
          · split at h
            · split at h
              · exact StepResult.noConfusion h
              · exact StepResult.noConfusion h
            · exact StepResult.noConfusion h
          · exact StepResult.noConfusion h
        · intro h
          exact absurd h (by simp)

theorem attemptStep_done_shape (m : List (String × String)) (conf : ℚ) (o : AttemptOutcome)
    (r : LlmResult) (h : attemptStep m conf o = .done r) :
    r = ⟨"", 0, "unmatched"⟩ ∨ r.method = "LLM" := by
  cases o with
  | timeout => simp [attemptStep] at h
  | connError => simp [attemptStep] at h
  | unexpected => simp [attemptStep] at h; exact Or.inl h.symm
  | status code parsed =>
    simp only [attemptStep] at h
    split at h
    · simp at h
    · split at h
      · simp at h
      · cases parsed with
        | none => simp at h
        | some a =>
          simp only [] at h
          split at h
          · split at h
            · split at h
              · injection h with h1; exact Or.inr (by rw [← h1])
              · injection h with h1; exact Or.inl h1.symm
            · injection h with h1; exact Or.inl h1.symm
          · injection h with h1; exact Or.inl h1.symm

theorem llmLoop_cons_done (m : List (String × String)) (conf : ℚ) (o : AttemptOutcome)
    (rest : List AttemptOutcome) (a rem : Nat) (r : LlmResult)
    (h : attemptStep m conf o = .done r) :
    llmLoop m conf a (rem + 1) (o :: rest) = ⟨r, 1, []⟩ := by
  simp [llmLoop, h]

theorem llmLoop_cons_retry (m : List (String × String)) (conf : ℚ) (o : AttemptOutcome)
    (rest : List AttemptOutcome) (a rem : Nat)
    (h : attemptStep m conf o = .retry) :
    llmLoop m conf a (rem + 1) (o :: rest) =
      ⟨(llmLoop m conf (a + 1) rem rest).result,
       (llmLoop m conf (a + 1) rem rest).attemptsMade + 1,
       backoff a :: (llmLoop m conf (a + 1) rem rest).sleeps⟩ := by
  simp [llmLoop, h]

theorem llmLoop_all_retry (m : List (String × String)) (conf : ℚ) :
    ∀ (os : List AttemptOutcome) (a rem : Nat), os.length = rem →
      (∀ o ∈ os, isRetryable o = true) →
      llmLoop m conf a rem os = ⟨⟨"", 0, "unmatched"⟩, rem, backoffList a rem⟩ := by
  intro os
  induction os with
  | nil =>
    intro a rem hlen _
    subst hlen
    rfl
  | cons o rest ih =>
    intro a rem hlen hall
    subst hlen
    rw [List.length_cons,
      llmLoop_cons_retry m conf o rest a rest.length
        ((attemptStep_retry_iff m conf o).mpr (hall o (List.mem_cons_self o rest))),
      ih (a + 1) rest.length rfl fun x hx => hall x (List.mem_cons_of_mem o hx)]
    rfl

theorem llmLoop_result_shape (m : List (String × String)) (conf : ℚ) :
    ∀ (os : List AttemptOutcome) (a rem : Nat),
      (llmLoop m conf a rem os).result = ⟨"", 0, "unmatched"⟩ ∨
      (llmLoop m conf a rem os).result.method = "LLM" := by
  intro os
  induction os with
  | nil =>
    intro a rem
    cases rem with
    | zero => exact Or.inl rfl
    | succ n => exact Or.inl rfl
  | cons o rest ih =>
    intro a rem
    cases rem with
    | zero => exact Or.inl rfl
    | succ n =>
      cases hs : attemptStep m conf o with
      | done r =>
        rw [llmLoop_cons_done m conf o rest a n r hs]
        exact attemptStep_done_shape m conf o r hs
      | retry =>
        rw [llmLoop_cons_retry m conf o rest a n hs]
        exact ih (a + 1) n

theorem llm_assign_result_shape (k : Bool) (cands : List String) (conf : ℚ)
    (os : List AttemptOutcome) :
    (llm_assign k cands conf os).result = ⟨"", 0, "unmatched"⟩ ∨
    (llm_assign k cands conf os).result.method = "LLM" := by
  cases k with
  | false => exact Or.inl rfl
  | true => exact llmLoop_result_shape (llmNormMap cands) conf os 1 MAX_RETRIES

/-- Proof-support: `attemptStep` on an accepted HTTP status carrying a
recovered JSON answer, with the outer guards discharged. -/
theorem attemptStep_status_some (m : List (String × String)) (conf : ℚ) (code : Nat)
    (a : LlmAnswer) (hcode : code < 400) :
    attemptStep m conf (.status code (some a)) =
      (if a.trim ≠ "" then
        match alookup (pyNorm a.trim) m with
        | some orig =>
          if conf ≤ clip01opt a.confidence then .done ⟨orig, clip01opt a.confidence, "LLM"⟩
          else .done ⟨"", 0, "unmatched"⟩
        | none => .done ⟨"", 0, "unmatched"⟩
      else .done ⟨"", 0, "unmatched"⟩) := by
  have h5 : ¬ 500 ≤ code := by omega
  have h4 : ¬ 400 ≤ code := by omega
  simp only [attemptStep, if_neg h5, if_neg h4]

/-- Claim C2, counterexample to the original statement: an HTTP 404
client error (which is not a 5xx) is retried rather than immediately
yielding unmatched — the very next attempt runs and is here accepted,
so the call makes 2 attempts and returns an accepted result. -/
theorem llm_client_error_retried_cx :
    (llm_assign true ["SE"] 1
      [.status 404 none, .status 200 (some ⟨"SE", some 1⟩), .timeout, .timeout]).attemptsMade = 2 ∧
    (llm_assign true ["SE"] 1
      [.status 404 none, .status 200 (some ⟨"SE", some 1⟩), .timeout, .timeout]).result.trim = "SE" ∧
    (llm_assign true ["SE"] 1
      [.status 404 none, .status 200 (some ⟨"SE", some 1⟩), .timeout, .timeout]).result.method = "LLM" :=
  ⟨by decide, by decide, by decide⟩

/-- Claim C2 (amended): the retried set is timeouts, connection
failures, HTTP errors of ANY status `≥ 400` (4xx client errors as well
as 5xx, because `raise_for_status` raises `HTTPError` for both), and
response bodies from which no JSON object is recoverable; a retryable
first outcome leads to a second attempt after the backoff sleep, while
an error outside the retried classes (`unexpected`) immediately yields
the unmatched result with no further attempts. -/
theorem llm_retry_policy_amended (cands : List String) (conf : ℚ)
    (o : AttemptOutcome) (rest : List AttemptOutcome) :
    (isRetryable o = true →
      llm_assign true cands conf (o :: rest) =
        ⟨(llmLoop (llmNormMap cands) conf 2 3 rest).result,
         (llmLoop (llmNormMap cands) conf 2 3 rest).attemptsMade + 1,
         backoff 1 :: (llmLoop (llmNormMap cands) conf 2 3 rest).sleeps⟩) ∧
    llm_assign true cands conf (.unexpected :: rest) = ⟨⟨"", 0, "unmatched"⟩, 1, []⟩ ∧
    isRetryable .timeout = true ∧
    isRetryable .connError = true ∧
    (∀ code parsed, 400 ≤ code → isRetryable (.status code parsed) = true) ∧
    (∀ code, isRetryable (.status code none) = true) ∧
    (∀ code a, code < 400 → isRetryable (.status code (some a)) = false) ∧
    isRetryable .unexpected = false := by
  refine ⟨?_, ?_, rfl, rfl, ?_, ?_, ?_, rfl⟩
  · intro h
    show llmLoop (llmNormMap cands) conf 1 (3 + 1) (o :: rest) = _
    rw [llmLoop_cons_retry _ _ _ _ 1 3 ((attemptStep_retry_iff _ _ _).mpr h)]
  · show llmLoop (llmNormMap cands) conf 1 (3 + 1) (.unexpected :: rest) = _
    exact llmLoop_cons_done _ _ _ _ 1 3 _ rfl
  · intro code parsed h4
    simp [isRetryable, h4]
  · intro code
    by_cases h4 : 400 ≤ code <;> simp [isRetryable, h4]
  · intro code a h4
    simp [isRetryable, show ¬ 400 ≤ code by omega]

theorem llm_retry_policy_amended_witness :
    llm_assign true ["SE"] 1 [.timeout, .unexpected] =
      ⟨(llmLoop (llmNormMap ["SE"]) 1 2 3 [.unexpected]).result,
       (llmLoop (llmNormMap ["SE"]) 1 2 3 [.unexpected]).attemptsMade + 1,
       backoff 1 :: (llmLoop (llmNormMap ["SE"]) 1 2 3 [.unexpected]).sleeps⟩ ∧
    isRetryable (.status 404 (some ⟨"SE", some 1⟩)) = true ∧
    isRetryable (.status 399 (some ⟨"SE", some 1⟩)) = false :=
  ⟨(llm_retry_policy_amended ["SE"] 1 .timeout [.unexpected]).1 (by decide),
   (llm_retry_policy_amended [] 0 .timeout []).2.2.2.2.1 404 (some ⟨"SE", some 1⟩) (by decide),
   (llm_retry_policy_amended [] 0 .timeout []).2.2.2.2.2.2.1 399 ⟨"SE", some 1⟩ (by decide)⟩

/-- Claim C7: a syntactically valid classifier answer naming a trim
whose normalized form is not a key of the candidate map, or whose
(clipped) confidence is below the configured minimum, makes the stage
return the unmatched dict with confidence 0 after exactly this one
attempt — a validation rejection is never retried, at whatever attempt
position it occurs. -/
theorem llm_validation_not_retried (cands : List String) (conf : ℚ) (code : Nat)
    (a : LlmAnswer) (rest : List AttemptOutcome)
    (hcode : code < 400) (htrim : a.trim ≠ "")
    (hrej : alookup (pyNorm a.trim) (llmNormMap cands) = none ∨ clip01opt a.confidence < conf) :
    llm_assign true cands conf (.status code (some a) :: rest) = ⟨⟨"", 0, "unmatched"⟩, 1, []⟩ ∧
    ∀ (att rem : Nat),
      llmLoop (llmNormMap cands) conf att (rem + 1) (.status code (some a) :: rest) =
        ⟨⟨"", 0, "unmatched"⟩, 1, []⟩ := by
  have hstep : attemptStep (llmNormMap cands) conf (.status code (some a)) =
      .done ⟨"", 0, "unmatched"⟩ := by
    rw [attemptStep_status_some _ _ _ _ hcode, if_pos htrim]
    rcases hrej with hl | hc
    · rw [hl]
    · cases hl : alookup (pyNorm a.trim) (llmNormMap cands) with
      | none => rfl
      | some orig =>
        show (if conf ≤ clip01opt a.confidence then
            StepResult.done ⟨orig, clip01opt a.confidence, "LLM"⟩
          else StepResult.done ⟨"", 0, "unmatched"⟩) = _
        rw [if_neg (not_le.mpr hc)]
  constructor
  · show llmLoop (llmNormMap cands) conf 1 (3 + 1) _ = _
    exact llmLoop_cons_done _ _ _ _ 1 3 _ hstep
  · intro att rem
    exact llmLoop_cons_done _ _ _ _ att rem _ hstep

theorem llm_validation_not_retried_witness :
    llm_assign true ["SE"] 0
      [.status 200 (some ⟨"XL", some 1⟩), .timeout, .timeout, .timeout] =
      ⟨⟨"", 0, "unmatched"⟩, 1, []⟩ :=
  (llm_validation_not_retried ["SE"] 0 200 ⟨"XL", some 1⟩ [.timeout, .timeout, .timeout]
    (by decide) (by decide) (Or.inl (by decide))).1

/-- Claim C8: when every attempt fails transiently, exactly
`MAX_RETRIES` attempts are made, the sleeps performed are the backoffs
`BACKOFF_BASE * 2 ^ (attempt - 1)` of attempts `1..MAX_RETRIES` in
order (so every retry is preceded by the previous attempt's backoff),
and the call returns the unmatched dict instead of raising. -/
theorem llm_transient_exhaustion (cands : List String) (conf : ℚ)
    (outcomes : List AttemptOutcome)
    (hlen : outcomes.length = MAX_RETRIES)
    (hall : ∀ o ∈ outcomes, isRetryable o = true) :
    llm_assign true cands conf outcomes =
      ⟨⟨"", 0, "unmatched"⟩, MAX_RETRIES, [backoff 1, backoff 2, backoff 3, backoff 4]⟩ ∧
    ∀ k, backoff k = BACKOFF_BASE * 2 ^ (k - 1) := by
  constructor
  · have h := llmLoop_all_retry (llmNormMap cands) conf outcomes 1 MAX_RETRIES hlen hall
    rw [show llm_assign true cands conf outcomes =
      llmLoop (llmNormMap cands) conf 1 MAX_RETRIES outcomes from rfl, h]
    rfl
  · intro k
    rfl

theorem llm_transient_exhaustion_witness :
    llm_assign true [] 0 [.timeout, .connError, .status 500 none, .status 503 none] =
      ⟨⟨"", 0, "unmatched"⟩, MAX_RETRIES, [backoff 1, backoff 2, backoff 3, backoff 4]⟩ :=
  (llm_transient_exhaustion [] 0 [.timeout, .connError, .status 500 none, .status 503 none]
    (by decide) (by decide)).1

/-- Proof-support: the cascade only produces the five canonical labels. -/
theorem canonical_core_mem (n : String) :
    canonical_core n ∈ ["exact", "manual", "LLM", "fuzzy", "unmatched"] := by
  unfold canonical_core
  repeat' split
  all_goals decide

/-- Claim C1, counterexample to the original statement: the label
"foo" contains none of the keywords, yet `_canonical_method` maps it to
"fuzzy" (the source's default fallback), not to "unmatched" as the
claim states. -/
theorem canonical_method_default_cx :
    strIn "manual" (pyLower (stripWs "foo")) = false ∧
    strIn "llm" (pyLower (stripWs "foo")) = false ∧
    strIn "ai" (pyLower (stripWs "foo")) = false ∧
    strIn "fuzzy" (pyLower (stripWs "foo")) = false ∧
    strIn "rule" (pyLower (stripWs "foo")) = false ∧
    strIn "heuristic" (pyLower (stripWs "foo")) = false ∧
    strIn "mapping" (pyLower (stripWs "foo")) = false ∧
    strIn "closest" (pyLower (stripWs "foo")) = false ∧
    canonical_method (some "foo") = "fuzzy" ∧
    canonical_method (some "foo") ≠ "unmatched" := by
  decide

/-- Claim C1 (amended): `_canonical_method` folds every label into the
fixed vocabulary; after trimming and lowercasing, a label containing
"manual" maps to manual, one containing "llm" or "ai" (and not
"manual") maps to LLM, and any other label maps to fuzzy — the default
fallback — except the special labels: the exact strings "exact",
"unmatched" and "null" (which map to exact resp. unmatched) and the
empty or missing (None) label, which maps to unmatched.  (The keyword
rules for
"fuzzy", "rule", "heuristic", "mapping", "canonical", "closest" and
"string" also yield fuzzy, which the default subsumes.) -/
theorem canonical_method_amended (s : String) :
    canonical_method (some s) ∈ ["exact", "manual", "LLM", "fuzzy", "unmatched"] ∧
    (strIn "manual" (pyLower (stripWs s)) = true → pyLower (stripWs s) ≠ "exact" →
      canonical_method (some s) = "manual") ∧
    ((strIn "llm" (pyLower (stripWs s)) = true ∨ strIn "ai" (pyLower (stripWs s)) = true) →
      strIn "manual" (pyLower (stripWs s)) = false → pyLower (stripWs s) ≠ "exact" →
      canonical_method (some s) = "LLM") ∧
    (s ≠ "" → strIn "manual" (pyLower (stripWs s)) = false →
      strIn "llm" (pyLower (stripWs s)) = false → strIn "ai" (pyLower (stripWs s)) = false →
      pyLower (stripWs s) ≠ "exact" → pyLower (stripWs s) ≠ "unmatched" →
      pyLower (stripWs s) ≠ "null" →
      canonical_method (some s) = "fuzzy") ∧
    (s = "" → canonical_method (some s) = "unmatched") ∧
    (pyLower (stripWs s) = "unmatched" → canonical_method (some s) = "unmatched") ∧
    (pyLower (stripWs s) = "exact" → canonical_method (some s) = "exact") ∧
    (pyLower (stripWs s) = "null" → canonical_method (some s) = "unmatched") ∧
    canonical_method none = "unmatched" := by
  refine ⟨?_, ?_, ?_, ?_, ?_, ?_, ?_, ?_, rfl⟩
  · by_cases hs : s = ""
    · simp [canonical_method, hs]
    · simp only [canonical_method, if_neg hs]
      exact canonical_core_mem _
  · intro hm hne
    by_cases hs : s = ""
    · rw [hs] at hm
      exact absurd hm (by decide)
    · simp [canonical_method, canonical_core, hs, hm, hne]
  · intro hla hm hne
    by_cases hs : s = ""
    · rcases hla with hl | ha
      · rw [hs] at hl; exact absurd hl (by decide)
      · rw [hs] at ha; exact absurd ha (by decide)
    · rcases hla with hl | ha
      · simp [canonical_method, canonical_core, hs, hm, hne, hl]
      · simp [canonical_method, canonical_core, hs, hm, hne, ha]
  · intro hs hm hl ha hne hnu hnn
    simp [canonical_method, canonical_core, hs, hm, hl, ha, hne, hnu, hnn]
  · intro hs
    simp [canonical_method, hs]
  · intro hu
    by_cases hs : s = ""
    · simp [canonical_method, hs]
    · simp only [canonical_method, if_neg hs, hu]
      decide
  · intro he
    by_cases hs : s = ""
    · rw [hs] at he; exact absurd he (by decide)
    · simp only [canonical_method, if_neg hs, he]
      decide
  · intro hn
    by_cases hs : s = ""
    · simp [canonical_method, hs]
    · simp only [canonical_method, if_neg hs, hn]
      decide

theorem canonical_method_amended_witness :
    canonical_method (some " Manual-Override ") = "manual" ∧
    canonical_method (some "ai v2") = "LLM" ∧
    canonical_method (some "xyz") = "fuzzy" ∧
    canonical_method (some "") = "unmatched" ∧
    canonical_method (some " NULL ") = "unmatched" :=
  ⟨(canonical_method_amended " Manual-Override ").2.1 (by decide) (by decide),
   (canonical_method_amended "ai v2").2.2.1 (Or.inr (by decide)) (by decide) (by decide),
   (canonical_method_amended "xyz").2.2.2.1 (by decide) (by decide) (by decide) (by decide)
     (by decide) (by decide) (by decide),
   (canonical_method_amended "").2.2.2.2.1 rfl,
   (canonical_method_amended " NULL ").2.2.2.2.2.2.2.1 (by decide)⟩

/-- Proof-support: soundness of the dedup loop of
`get_candidate_trims`: pairwise-distinct lowercased keys, keys outside
`seen`, and every entry a stripped non-empty row value. -/
theorem dedupeRows_sound (rows : List (Option String)) :
    ∀ (seen : List String),
      (dedupeRows seen rows).Pairwise (fun a b => pyLower a ≠ pyLower b) ∧
      ∀ t ∈ dedupeRows seen rows, pyLower t ∉ seen ∧ t ≠ "" ∧
        ∃ r ∈ rows, t = stripWs (r.getD "") := by
  induction rows with
  | nil =>
    intro seen
    exact ⟨List.Pairwise.nil, by simp [dedupeRows]⟩
  | cons r rs ih =>
    intro seen
    rw [dedupeRows]
    split
    · refine ⟨(ih seen).1, fun t ht => ?_⟩
      obtain ⟨h1, h2, r', hr', h3⟩ := (ih seen).2 t ht
      exact ⟨h1, h2, r', List.mem_cons_of_mem r hr', h3⟩
    · split
      · refine ⟨(ih seen).1, fun t ht => ?_⟩
        obtain ⟨h1, h2, r', hr', h3⟩ := (ih seen).2 t ht
        exact ⟨h1, h2, r', List.mem_cons_of_mem r hr', h3⟩
      · rename_i hne hnotin
        refine ⟨List.Pairwise.cons ?_ (ih _).1, fun t ht => ?_⟩
        · intro b hb
          have hb' := ((ih (pyLower (stripWs (r.getD "")) :: seen)).2 b hb).1
          intro hcontra
          exact hb' (by rw [← hcontra]; exact List.mem_cons_self _ _)
        · rcases List.mem_cons.mp ht with rfl | ht'
          · exact ⟨hnotin, hne, r, List.mem_cons_self r rs, rfl⟩
          · obtain ⟨h1, h2, r', hr', h3⟩ :=
              (ih (pyLower (stripWs (r.getD "")) :: seen)).2 t ht'
            exact ⟨fun hc => h1 (List.mem_cons_of_mem _ hc), h2, r',
              List.mem_cons_of_mem r hr', h3⟩

/-- Claim C3, counterexample to the original statement: the rows
"SE Plus" and "SE-Plus" have distinct lowercase forms, so the dedup by
`t.lower()` keeps both, although they have the same normalized key —
two entries of the returned list normalize identically. -/
theorem get_candidate_trims_norm_dedup_cx :
    get_candidate_trims [some "SE Plus", some "SE-Plus"] = ["SE Plus", "SE-Plus"] ∧
    pyNorm "SE Plus" = pyNorm "SE-Plus" ∧
    "SE Plus" ≠ "SE-Plus" := by
  decide

/-- Claim C3 (amended): the candidate list is deduplicated by the
LOWERCASED form (not the normalized form), first-seen-wins: no two
returned entries agree after lowercasing, and every entry is a
stripped, non-empty value of some fetched row.  Entries differing only
in punctuation or spacing may still share a normalized key. -/
theorem get_candidate_trims_lower_dedup (rows : List (Option String)) :
    (get_candidate_trims rows).Pairwise (fun a b => pyLower a ≠ pyLower b) ∧
    ∀ t ∈ get_candidate_trims rows, t ≠ "" ∧ ∃ r ∈ rows, t = stripWs (r.getD "") := by
  obtain ⟨h1, h2⟩ := dedupeRows_sound rows []
  exact ⟨h1, fun t ht => ⟨(h2 t ht).2.1, (h2 t ht).2.2⟩⟩

/-- Claim C9: the normalizer is idempotent —
`normalize(normalize(x)) == normalize(x)` for every string — and maps
strings differing only in case, punctuation or spacing to the same
key: `normalize("SE-Plus") == normalize("se   plus")`. -/
theorem norm_idempotent_insensitive :
    (∀ s : String, pyNorm (pyNorm s) = pyNorm s) ∧
    pyNorm "SE-Plus" = pyNorm "se   plus" :=
  ⟨pyNorm_idem, by decide⟩

/-! Support lemmas about the candidate map and the fuzzy search. -/

theorem buildNormMapGo_lookup_sound :
    ∀ (l : List String) (seen : List String) (k v : String),
      alookup k (buildNormMapGo seen l) = some v → v ∈ l ∧ pyNorm v = k ∧ k ≠ "" := by
  intro l
  induction l with
  | nil =>
    intro seen k v h
    simp [buildNormMapGo, alookup] at h
  | cons t ts ih =>
    intro seen k v h
    simp only [buildNormMapGo] at h
    split at h
    · rename_i hcond
      rw [alookup] at h
      split at h
      · rename_i hk
        injection h with hv
        subst hv
        exact ⟨List.mem_cons_self _ _, hk.symm, by rw [hk]; exact hcond.1⟩
      · obtain ⟨h1, h2, h3⟩ := ih (pyNorm t :: seen) k v h
        exact ⟨List.mem_cons_of_mem t h1, h2, h3⟩
    · obtain ⟨h1, h2, h3⟩ := ih seen k v h
      exact ⟨List.mem_cons_of_mem t h1, h2, h3⟩

theorem buildNormMapGo_lookup_complete :
    ∀ (l : List String) (seen : List String) (k : String), k ≠ "" → k ∉ seen →
      (∃ t ∈ l, pyNorm t = k) →
      ∃ v, alookup k (buildNormMapGo seen l) = some v ∧ v ∈ l ∧ pyNorm v = k := by
  intro l
  induction l with
  | nil =>
    intro seen k _ _ hex
    obtain ⟨t, ht, _⟩ := hex
    simp at ht
  | cons t ts ih =>
    intro seen k hk hks hex
    simp only [buildNormMapGo]
    split
    · rename_i hcond
      by_cases hkt : k = pyNorm t
      · refine ⟨t, ?_, List.mem_cons_self _ _, hkt.symm⟩
        rw [alookup, if_pos hkt]
      · obtain ⟨t', ht', hk'⟩ := hex
        have ht'' : t' ∈ ts := by
          rcases List.mem_cons.mp ht' with rfl | h
          · exact absurd hk'.symm hkt
          · exact h
        obtain ⟨v, hv1, hv2, hv3⟩ := ih (pyNorm t :: seen) k hk
          (by
            intro hc
            rcases List.mem_cons.mp hc with h | h
            · exact hkt h
            · exact hks h)
          ⟨t', ht'', hk'⟩
        refine ⟨v, ?_, List.mem_cons_of_mem t hv2, hv3⟩
        rw [alookup, if_neg hkt, hv1]
    · rename_i hcond
      obtain ⟨t', ht', hk'⟩ := hex
      have ht'' : t' ∈ ts := by
        rcases List.mem_cons.mp ht' with rfl | h
        · exfalso
          apply hcond
          constructor
          · rw [hk']; exact hk
          · intro hmem
            exact hks (hk' ▸ hmem)
        · exact h
      obtain ⟨v, hv1, hv2, hv3⟩ := ih seen k hk hks ⟨t', ht'', hk'⟩
      exact ⟨v, hv1, List.mem_cons_of_mem t hv2, hv3⟩

theorem alookup_of_mem_keys :
    ∀ (m : List (String × String)) (k : String), k ∈ m.map Prod.fst →
      ∃ v, alookup k m = some v := by
  intro m
  induction m with
  | nil => intro k h; simp at h
  | cons p rest ih =>
    intro k h
    obtain ⟨k', v⟩ := p
    rw [List.map_cons] at h
    rcases List.mem_cons.mp h with h1 | h1
    · exact ⟨v, by rw [alookup, if_pos h1]⟩
    · by_cases hk : k = k'
      · exact ⟨v, by rw [alookup, if_pos hk]⟩
      · obtain ⟨w, hw⟩ := ih k h1
        exact ⟨w, by rw [alookup, if_neg hk]; exact hw⟩

theorem extractOne_mem (scorer : String → String → Nat) (query : String) :
    ∀ (cs : List String) (v : String) (s : Nat),
      extractOne scorer query cs = some (v, s) → v ∈ cs := by
  have haux : ∀ (cs : List String) (acc : String × Nat),
      (cs.foldl (fun best x => if best.2 < scorer query x then (x, scorer query x) else best)
        acc).1 = acc.1 ∨
      (cs.foldl (fun best x => if best.2 < scorer query x then (x, scorer query x) else best)
        acc).1 ∈ cs := by
    intro cs
    induction cs with
    | nil => intro acc; exact Or.inl rfl
    | cons c cs ih =>
      intro acc
      rw [List.foldl_cons]
      rcases ih (if acc.2 < scorer query c then (c, scorer query c) else acc) with h | h
      · rw [h]
        split
        · exact Or.inr (List.mem_cons_self _ _)
        · exact Or.inl rfl
      · exact Or.inr (List.mem_cons_of_mem _ h)
  intro cs v s h
  cases cs with
  | nil => simp [extractOne] at h
  | cons c cs =>
    simp only [extractOne] at h
    injection h with h1
    have hv : (cs.foldl
        (fun best x => if best.2 < scorer query x then (x, scorer query x) else best)
        (c, scorer query c)).1 = v := by rw [h1]
    rcases haux cs (c, scorer query c) with h2 | h2
    · rw [hv] at h2
      rw [h2]
      exact List.mem_cons_self _ _
    · rw [hv] at h2
      exact List.mem_cons_of_mem _ h2

theorem best_by_scorer_mem (sc : String → String → Nat) (q : String) (cands : List String)
    (v : String) (s : Nat) (h : best_by_scorer sc q cands = (some v, s)) : v ∈ cands := by
  unfold best_by_scorer at h
  split at h
  · injection h with h1 _
    exact absurd h1 (by simp)
  · split at h
    · injection h with h1 _
      exact absurd h1 (by simp)
    · rename_i v' s' heq
      injection h with h1 h2
      injection h1 with h1'
      rw [← h1']
      exact extractOne_mem sc q cands v' s' heq

theorem bestPair_mem (sc : String → String → Nat) (q : String) (cands : List String)
    (p : String × Nat) (h : p ∈ bestPair sc q cands) : p.1 ∈ cands := by
  unfold bestPair at h
  split at h
  · rename_i v s heq
    rcases List.mem_singleton.mp h with rfl
    exact best_by_scorer_mem sc q cands v s heq
  · simp at h

theorem argmaxFirst_mem :
    ∀ (l : List (String × Nat)) (p : String × Nat), argmaxFirst l = some p → p ∈ l := by
  have haux : ∀ (ps : List (String × Nat)) (acc : String × Nat),
      ps.foldl (fun best x => if best.2 < x.2 then x else best) acc = acc ∨
      ps.foldl (fun best x => if best.2 < x.2 then x else best) acc ∈ ps := by
    intro ps
    induction ps with
    | nil => intro acc; exact Or.inl rfl
    | cons q qs ih =>
      intro acc
      rw [List.foldl_cons]
      rcases ih (if acc.2 < q.2 then q else acc) with h | h
      · rw [h]
        split
        · exact Or.inr (List.mem_cons_self _ _)
        · exact Or.inl rfl
      · exact Or.inr (List.mem_cons_of_mem _ h)
  intro l p h
  cases l with
  | nil => simp [argmaxFirst] at h
  | cons q qs =>
    simp only [argmaxFirst] at h
    injection h with h1
    rcases haux qs q with h2 | h2
    · rw [h1] at h2
      rw [h2]
      exact List.mem_cons_self _ _
    · rw [h1] at h2
      exact List.mem_cons_of_mem _ h2

theorem mem_ite_list {α : Type} (c : Prop) [Decidable c] (l1 l2 : List α) (x : α)
    (h : x ∈ (if c then l1 else l2)) : x ∈ l1 ∨ x ∈ l2 := by
  split at h
  · exact Or.inl h
  · exact Or.inr h

/-! Stage inversion and empty-candidate lemmas. -/

theorem exactStage_some (m : List (String × String)) (k : String) (r : MatchOut)
    (h : exactStage m k = some r) :
    ∃ orig, alookup k m = some orig ∧ r = ⟨some orig, 1, "exact"⟩ := by
  unfold exactStage at h
  split at h
  · rename_i orig heq
    injection h with h1
    refine ⟨orig, ?_, h1.symm⟩
    by_cases hk : k = ""
    · rw [if_pos hk] at heq
      exact absurd heq (by simp)
    · rwa [if_neg hk] at heq
  · exact absurd h (by simp)

theorem exactStage_of_lookup (m : List (String × String)) (k v : String)
    (hk : k ≠ "") (hl : alookup k m = some v) :
    exactStage m k = some ⟨some v, 1, "exact"⟩ := by
  unfold exactStage
  rw [if_neg hk, hl]

theorem llmStage_some (m : List (String × String)) (conf : ℚ) (ai : Except Unit LlmResult)
    (r : MatchOut) (h : llmStage m conf ai = some r) :
    ∃ g orig, ai = .ok g ∧ g.trim ≠ "" ∧ alookup (pyNorm g.trim) m = some orig ∧
      conf ≤ clip01 g.confidence ∧
      r = ⟨some orig, clip01 g.confidence, canonical_method (some g.method)⟩ := by
  cases ai with
  | error e => simp [llmStage] at h
  | ok g =>
    simp only [llmStage] at h
    split at h
    · exact absurd h (by simp)
    · rename_i htrim
      split at h
      · rename_i orig heq
        split at h
        · rename_i hconf
          injection h with h1
          exact ⟨g, orig, rfl, htrim, heq, hconf, h1.symm⟩
        · exact absurd h (by simp)
      · exact absurd h (by simp)

theorem fuzzy1Stage_some (sc : String → String → Nat) (m : List (String × String))
    (k : String) (pth : Nat) (r : MatchOut) (h : fuzzy1Stage sc m k pth = some r) :
    ∃ v s, v ∈ m.map Prod.fst ∧
      r = ⟨some ((alookup v m).getD ""), clip01 ((s : ℚ) / 100), "fuzzy"⟩ := by
  unfold fuzzy1Stage at h
  split at h
  · rename_i v s heq
    split at h
    · injection h with h1
      exact ⟨v, s, best_by_scorer_mem sc k _ v s heq, h1.symm⟩
    · exact absurd h (by simp)
  · exact absurd h (by simp)

theorem fuzzy2Stage_some (sc pr : String → String → Nat) (m : List (String × String))
    (k : String) (title description : Option String) (sth : Nat) (r : MatchOut)
    (h : fuzzy2Stage sc pr m k title description sth = some r) :
    ∃ v s, v ∈ m.map Prod.fst ∧
      r = ⟨some ((alookup v m).getD ""), clip01 ((s : ℚ) / 100), "fuzzy"⟩ := by
  simp only [fuzzy2Stage] at h
  split at h
  · rename_i v s heq
    split at h
    · injection h with h1
      refine ⟨v, s, ?_, h1.symm⟩
      have hmem := argmaxFirst_mem _ _ heq
      rcases List.mem_append.mp hmem with h2 | h2
      · rcases mem_ite_list _ _ _ _ h2 with h3 | h3
        · rcases List.mem_append.mp h3 with h4 | h4
          · exact bestPair_mem _ _ _ _ h4
          · exact bestPair_mem _ _ _ _ h4
        · simp at h3
      · rcases mem_ite_list _ _ _ _ h2 with h3 | h3
        · exact bestPair_mem _ _ _ _ h3
        · simp at h3
    · exact absurd h (by simp)
  · exact absurd h (by simp)

theorem exactStage_nil (k : String) : exactStage [] k = none := by
  unfold exactStage
  rcases eq_or_ne k "" with h | h
  · rw [if_pos h]
  · rw [if_neg h]
    rfl

theorem llmStage_nil (conf : ℚ) (ai : Except Unit LlmResult) : llmStage [] conf ai = none := by
  cases ai with
  | error e => rfl
  | ok g =>
    simp only [llmStage]
    rcases eq_or_ne g.trim "" with h | h
    · rw [if_pos h]
    · rw [if_neg h]
      rfl

theorem best_by_scorer_nil (sc : String → String → Nat) (q : String) :
    best_by_scorer sc q [] = (none, 0) := by
  unfold best_by_scorer
  rcases eq_or_ne q "" with h | h
  · rw [if_pos h]
  · rw [if_neg h]
    rfl

theorem bestPair_nil (sc : String → String → Nat) (q : String) : bestPair sc q [] = [] := by
  unfold bestPair
  rw [best_by_scorer_nil]

theorem fuzzy1Stage_nil (sc : String → String → Nat) (k : String) (pth : Nat) :
    fuzzy1Stage sc [] k pth = none := by
  unfold fuzzy1Stage
  rw [show (([] : List (String × String)).map Prod.fst) = [] from rfl, best_by_scorer_nil]

theorem fuzzy2Stage_nil (sc pr : String → String → Nat) (k : String)
    (title description : Option String) (sth : Nat) :
    fuzzy2Stage sc pr [] k title description sth = none := by
  simp only [fuzzy2Stage, List.map_nil, bestPair_nil, List.append_nil, List.nil_append,
    ite_self, argmaxFirst]

theorem runStages_cons_some (r : MatchOut) (rest : List (Option MatchOut)) :
    runStages (some r :: rest) = r := rfl

theorem runStages_cons_none (rest : List (Option MatchOut)) :
    runStages (none :: rest) = runStages rest := rfl

/-- `match_trim` is exactly the first-accepting run of the four stages
(in the source's order), also when the candidate list is empty: with no
candidates every stage rejects, so the short-circuit of line 150 and
the stage chain agree on the unmatched dict. -/
theorem match_trim_eq_stages (listing : ListingInput) (candidate_trims : List String)
    (pth sth : Nat) (conf : ℚ) (allow : Bool)
    (tokenSetR partialR : String → String → Nat) (aiGuess : Except Unit LlmResult) :
    match_trim listing candidate_trims pth sth conf allow tokenSetR partialR aiGuess =
      runStages
        [exactStage (buildNormMap (candidate_trims.filter (fun c => c ≠ "")))
           (optNorm listing.trim),
         if allow then
           llmStage (buildNormMap (candidate_trims.filter (fun c => c ≠ ""))) conf aiGuess
         else none,
         fuzzy1Stage tokenSetR (buildNormMap (candidate_trims.filter (fun c => c ≠ "")))
           (optNorm listing.trim) pth,
         fuzzy2Stage tokenSetR partialR (buildNormMap (candidate_trims.filter (fun c => c ≠ "")))
           (optNorm listing.trim) listing.title listing.description sth] := by
  simp only [match_trim]
  split
  · rename_i hemp
    have hnil : candidate_trims.filter (fun c => c ≠ "") = [] := by
      simpa [List.isEmpty_iff] using hemp
    rw [hnil]
    rw [show buildNormMap [] = [] from rfl]
    rw [exactStage_nil, llmStage_nil, fuzzy1Stage_nil, fuzzy2Stage_nil, ite_self]
    rfl
  · rfl

theorem buildNormMap_lookup_complete (l : List String) (k : String) (hk : k ≠ "")
    (hex : ∃ t ∈ l, pyNorm t = k) :
    ∃ v, alookup k (buildNormMap l) = some v ∧ v ∈ l ∧ pyNorm v = k :=
  buildNormMapGo_lookup_complete l [] k hk (by simp) hex

/-- Claim C4: the pipeline tries its stages in the fixed order — exact
match, then the external classifier (only when enabled by
configuration), then fuzzy tier 1, then fuzzy tier 2 — stopping at the
first stage that accepts, and returns the unmatched dict exactly when
no stage accepts (also on an empty candidate list, where no stage can
accept). -/
theorem match_trim_stage_order (listing : ListingInput) (candidate_trims : List String)
    (pth sth : Nat) (conf : ℚ) (allow : Bool)
    (tokenSetR partialR : String → String → Nat) (aiGuess : Except Unit LlmResult) :
    match_trim listing candidate_trims pth sth conf allow tokenSetR partialR aiGuess =
      runStages
        [exactStage (buildNormMap (candidate_trims.filter (fun c => c ≠ "")))
           (optNorm listing.trim),
         if allow then
           llmStage (buildNormMap (candidate_trims.filter (fun c => c ≠ ""))) conf aiGuess
         else none,
         fuzzy1Stage tokenSetR (buildNormMap (candidate_trims.filter (fun c => c ≠ "")))
           (optNorm listing.trim) pth,
         fuzzy2Stage tokenSetR partialR (buildNormMap (candidate_trims.filter (fun c => c ≠ "")))
           (optNorm listing.trim) listing.title listing.description sth] :=
  match_trim_eq_stages listing candidate_trims pth sth conf allow tokenSetR partialR aiGuess

/-- The `MatchResult` invariant of the spec: a non-empty trim only with
an accepting method, and the unmatched method only with empty trim and
zero confidence. -/
def matchInvariant (r : MatchOut) : Prop :=
  (r.method = "unmatched" → r.trim = none ∧ r.confidence = 0) ∧
  (∀ s, r.trim = some s → s ≠ "" ∧ r.method ≠ "unmatched")

theorem matchInvariant_unmatched : matchInvariant ⟨none, 0, "unmatched"⟩ :=
  ⟨fun _ => ⟨rfl, rfl⟩, fun s hs => absurd hs (by simp)⟩

theorem matchInvariant_accept (t : String) (c : ℚ) (meth : String)
    (ht : t ≠ "") (hm : meth ≠ "unmatched") : matchInvariant ⟨some t, c, meth⟩ :=
  ⟨fun h => absurd h hm, fun s hs => by
    injection hs with h1
    exact ⟨h1 ▸ ht, hm⟩⟩

/-- Claim C5: every dict produced by the pipeline — with the classifier
answer either raising or being an actual `llm_assign` return value —
has a non-empty trim only when the method is not unmatched, and has
empty trim and confidence 0 whenever the method is unmatched. -/
theorem match_trim_result_invariant (listing : ListingInput) (candidate_trims : List String)
    (pth sth : Nat) (conf : ℚ) (allow : Bool) (tokenSetR partialR : String → String → Nat)
    (aiGuess : Except Unit LlmResult)
    (hai : aiGuess = .error () ∨ ∃ k os, aiGuess =
      .ok (llm_assign k (candidate_trims.filter (fun c => c ≠ "")) conf os).result) :
    matchInvariant (match_trim listing candidate_trims pth sth conf allow
      tokenSetR partialR aiGuess) := by
  rw [match_trim_eq_stages]
  have hval : ∀ (k v : String),
      alookup k (buildNormMap (candidate_trims.filter (fun c => c ≠ ""))) = some v →
      v ≠ "" := by
    intro k v hkv
    have h1 := (buildNormMapGo_lookup_sound _ [] k v hkv).1
    have h2 := List.mem_filter.mp h1
    simpa using h2.2
  cases he : exactStage (buildNormMap (candidate_trims.filter (fun c => c ≠ "")))
      (optNorm listing.trim) with
  | some r =>
    rw [runStages_cons_some]
    obtain ⟨orig, hl, hr⟩ := exactStage_some _ _ _ he
    subst hr
    exact matchInvariant_accept _ _ _ (hval _ _ hl) (by decide)
  | none =>
    rw [runStages_cons_none]
    cases hll : (if allow then
        llmStage (buildNormMap (candidate_trims.filter (fun c => c ≠ ""))) conf aiGuess
      else none) with
    | some r =>
      rw [runStages_cons_some]
      have hsome : llmStage (buildNormMap (candidate_trims.filter (fun c => c ≠ "")))
          conf aiGuess = some r := by
        cases allow with
        | false => simp at hll
        | true => simpa using hll
      obtain ⟨g, orig, hai', htrim, hl, hconf, hr⟩ := llmStage_some _ _ _ _ hsome
      subst hr
      have hLLM : g.method = "LLM" := by
        rcases hai with hERR | ⟨k, os, hOK⟩
        · rw [hERR] at hai'
          exact absurd hai' (by simp)
        · rw [hOK] at hai'
          injection hai' with hg
          rcases llm_assign_result_shape k (candidate_trims.filter (fun c => c ≠ "")) conf os
            with hsh | hsh
          · rw [← hg] at htrim
            rw [hsh] at htrim
            exact absurd rfl htrim
          · rw [← hg]
            exact hsh
      rw [hLLM]
      exact matchInvariant_accept _ _ _ (hval _ _ hl) (by decide)
    | none =>
      rw [runStages_cons_none]
      cases hf1 : fuzzy1Stage tokenSetR
          (buildNormMap (candidate_trims.filter (fun c => c ≠ "")))
          (optNorm listing.trim) pth with
      | some r =>
        rw [runStages_cons_some]
        obtain ⟨v, s, hvk, hr⟩ := fuzzy1Stage_some _ _ _ _ _ hf1
        subst hr
        obtain ⟨w, hw⟩ := alookup_of_mem_keys _ v hvk
        rw [hw]
        exact matchInvariant_accept _ _ _ (hval _ _ hw) (by decide)
      | none =>
        rw [runStages_cons_none]
        cases hf2 : fuzzy2Stage tokenSetR partialR
            (buildNormMap (candidate_trims.filter (fun c => c ≠ "")))
            (optNorm listing.trim) listing.title listing.description sth with
        | some r =>
          rw [runStages_cons_some]
          obtain ⟨v, s, hvk, hr⟩ := fuzzy2Stage_some _ _ _ _ _ _ _ _ hf2
          subst hr
          obtain ⟨w, hw⟩ := alookup_of_mem_keys _ v hvk
          rw [hw]
          exact matchInvariant_accept _ _ _ (hval _ _ hw) (by decide)
        | none =>
          rw [runStages_cons_none]
          exact matchInvariant_unmatched

theorem match_trim_result_invariant_witness :
    matchInvariant (match_trim ⟨"b", "m", some "SE", none, none⟩ ["SE"] 82 74 1 false
      (fun _ _ => 0) (fun _ _ => 0) (.error ())) :=
  match_trim_result_invariant ⟨"b", "m", some "SE", none, none⟩ ["SE"] 82 74 1 false
    (fun _ _ => 0) (fun _ _ => 0) (.error ()) (Or.inl rfl)

/-- Claim C6, counterexample to the original statement: the raw trim
"--" is non-empty and its normalized key (the empty string) equals the
normalized key of the candidate "!!", yet the pipeline returns the
unmatched dict, not that candidate with confidence 1.0 and method
exact — candidates with an empty normalized key are never offered for
exact matching. -/
theorem match_trim_exact_empty_norm_cx :
    "--" ≠ "" ∧
    optNorm (some "--") = pyNorm "!!" ∧
    match_trim ⟨"b", "m", some "--", none, none⟩ ["!!"] 82 74 1 false
      (fun _ _ => 0) (fun _ _ => 0) (.error ()) = ⟨none, 0, "unmatched"⟩ := by
  decide

/-- Claim C6 (amended): for every listing whose raw trim has a
NON-EMPTY normalized key equal to the normalized key of some (filtered)
candidate, the pipeline returns the original display string of a
candidate with that key (the first seen), with confidence exactly 1 and
method exact. -/
theorem match_trim_exact_amended (listing : ListingInput) (candidate_trims : List String)
    (pth sth : Nat) (conf : ℚ) (allow : Bool) (tokenSetR partialR : String → String → Nat)
    (aiGuess : Except Unit LlmResult) (t : String)
    (hne : optNorm listing.trim ≠ "")
    (ht : t ∈ candidate_trims.filter (fun c => c ≠ ""))
    (hk : pyNorm t = optNorm listing.trim) :
    ∃ orig, orig ∈ candidate_trims.filter (fun c => c ≠ "") ∧
      pyNorm orig = optNorm listing.trim ∧
      match_trim listing candidate_trims pth sth conf allow tokenSetR partialR aiGuess =
        ⟨some orig, 1, "exact"⟩ := by
  obtain ⟨v, hv1, hv2, hv3⟩ := buildNormMap_lookup_complete
    (candidate_trims.filter (fun c => c ≠ "")) (optNorm listing.trim) hne ⟨t, ht, hk⟩
  refine ⟨v, hv2, hv3, ?_⟩
  rw [match_trim_eq_stages]
  rw [exactStage_of_lookup _ _ _ hne hv1]
  rfl

theorem match_trim_exact_amended_witness :
    ∃ orig, orig ∈ (["SE", "LE"].filter (fun c => c ≠ "")) ∧
      pyNorm orig = optNorm (some "se") ∧
      match_trim ⟨"b", "m", some "se", none, none⟩ ["SE", "LE"] 82 74 1 true
        (fun _ _ => 0) (fun _ _ => 0) (.error ()) = ⟨some orig, 1, "exact"⟩ :=
  match_trim_exact_amended ⟨"b", "m", some "se", none, none⟩ ["SE", "LE"] 82 74 1 true
    (fun _ _ => 0) (fun _ _ => 0) (.error ()) "SE" (by decide) (by decide) (by decide)
